import Mathlib

/-!
Verification of the batched collage-compositing engine in src/script.js.

The embedding models the function generate() (lines 164-299), its helpers
drawNumber (302-349), the geometry computation (197-208), cancelProcess
(661) and removeDuplicates (461-477).

Conventions of the embedding:
* JavaScript numbers holding integer values are modelled as Int (Nat for
  list indices); exact real arithmetic (float division followed by
  Math.floor or Math.ceil) is modelled as rational arithmetic with
  Int.floor / Int.ceil, which agrees with IEEE doubles at the magnitudes
  the program uses.
* DOM reads of configuration inputs are snapshotted into a GenConfig
  record; the JavaScript idiom parseInt(v) || d (NaN and 0 both fall back
  to the default) is modelled by parseIntOr on Option Int, where none is
  a failed parse.
* The cancellation flag (state.isCancelled, set by cancelProcess) is
  monotone during a run, so a run is fully determined by the index of the
  first flag read that returns true: checkpoint reads are numbered by a
  clock, and cancelAt = some c means every read with clock at least c
  sees the flag set; cancelAt = none means the flag is never set.
  Checkpoint reads happen at line 190 (group start) and line 215 (before
  each tile), in program order.
* Image decode (img.decode(), line 231) is an external effect: it is
  modelled by an oracle decodeOk giving success or failure per global
  image index, and an oracle imgDims giving the decoded width and height.
* A produced artifact (canvas.toBlob, line 277) is modelled as a Page
  recording the group index, the image slice, the tiles drawn (with their
  cover-crop geometry, placeholder state and number label) and the canvas
  dimensions used.
-/

/-- MAX_CANVAS_DIM, line 23 of src/script.js. -/
def MAX_CANVAS_DIM : Int := 8192

/-- The JavaScript idiom parseInt(v) || d: a failed parse (NaN) or a parse
result of 0 both fall back to the default d. -/
def parseIntOr (v : Option Int) (d : Int) : Int :=
  match v with
  | none => d
  | some x => if x = 0 then d else x

/-- Math.floor of an exact division, as used on lines 201-202. -/
def jsFloorDiv (a b : ℚ) : Int := ⌊a / b⌋

/-- Math.ceil of an exact division, as used on lines 186 and 205. -/
def jsCeilDiv (a b : ℚ) : Int := ⌈a / b⌉

/-- Line 199-201: cellW starts at the base width 1500 and is clamped when
cols * 1500 would exceed MAX_CANVAS_DIM. -/
def cellWidthOf (cols gap : Int) : Int :=
  if cols * 1500 > MAX_CANVAS_DIM
  then jsFloorDiv ((MAX_CANVAS_DIM - cols * gap : Int) : ℚ) (cols : ℚ)
  else 1500

/-- Line 202: cellH = Math.floor(cellW / ratio). -/
def cellHeightOf (cellW : Int) (ratio : ℚ) : Int := ⌊(cellW : ℚ) / ratio⌋

/-- Line 207: canvas.width = realCols * cellW + (realCols - 1) * gap, with
realCols = cols (line 204). -/
def pageWidthOf (cols gap : Int) : Int :=
  cols * cellWidthOf cols gap + (cols - 1) * gap

/-- Lines 205 and 208: realRows = Math.ceil(m / realCols) for the m images
of the group, and canvas.height = realRows * cellH + (realRows - 1) * gap. -/
def pageHeightOf (cols gap : Int) (ratio : ℚ) (m : Nat) : Int :=
  let cellH := cellHeightOf (cellWidthOf cols gap) ratio
  let realRows : Int := jsCeilDiv (m : ℚ) (cols : ℚ)
  realRows * cellH + (realRows - 1) * gap

/-- Snapshot of the configuration inputs read by generate() and
drawNumber(): cols and group_rows (lines 178-179), gap (line 183), the
aspect ratio (line 198 via getAspectRatio), showNum and startNumber
(lines 303-305). -/
structure GenConfig where
  cols : Int
  rows : Int
  gap : Int
  ratio : ℚ
  showNum : Bool
  startNum : Int
deriving DecidableEq

/-- The geometry of one successful tile draw, lines 234-248: the clip
rectangle and the destination rectangle passed to drawImage. -/
structure DrawSpec where
  clipX : ℚ
  clipY : ℚ
  clipW : ℚ
  clipH : ℚ
  dx : ℚ
  dy : ℚ
  dw : ℚ
  dh : ℚ
deriving DecidableEq

/-- Lines 233-248: centered cover-crop placement of a decoded image of
dimensions imgW x imgH into the cell at (x, y) of size cellW x cellH.
The clip region is set to the cell rectangle (lines 235-237); then the
image is scaled to cell height and horizontally centered when it is
relatively wider than the cell, and scaled to cell width and vertically
centered otherwise (lines 239-248). -/
def coverDraw (imgW imgH x y cellW cellH : ℚ) : DrawSpec :=
  let iRatio := imgW / imgH
  let cRatio := cellW / cellH
  if iRatio > cRatio then
    let drawW := cellH * iRatio
    ⟨x, y, cellW, cellH, x - (drawW - cellW) / 2, y, drawW, cellH⟩
  else
    let drawH := cellW / iRatio
    ⟨x, y, cellW, cellH, x, y - (drawH - cellH) / 2, cellW, drawH⟩

/-- What was painted into one cell: either the decoded image via the
cover-crop draw of lines 234-249, or the decode-failure placeholder of
lines 253-257 (grey fill of the whole cell plus the red error glyph). -/
inductive TileImage
  | drawn (spec : DrawSpec)
  | placeholder
deriving DecidableEq

/-- One cell of a page: its global image index, the cell origin computed
on lines 221-224, the painted content, and the number label drawn by
drawNumber (line 264; the label value startNum + index is computed on
lines 305-306, and nothing is drawn when showNum is off, line 303). -/
structure Tile where
  globalIdx : Nat
  x : Int
  y : Int
  image : TileImage
  number : Option Int
deriving DecidableEq

/-- One encoded artifact (canvas.toBlob, lines 277-278), recording the
group index, the image slice of line 195, the tiles drawn, and the canvas
dimensions set on lines 207-208. -/
structure Page (α : Type) where
  groupIdx : Nat
  imgs : List α
  tiles : List Tile
  width : Int
  height : Int
deriving DecidableEq

/-- Terminal outcome of a run of generate(): Completed means the loop ran
to exhaustion (line 291 reached with no break or throw), Cancelled means
the flag was seen set at a checkpoint (break at line 190 or the throw at
line 215 caught at line 293 with the flag set), Rejected means the empty
guard at line 165 returned before the run started. -/
inductive RunStatus
  | Completed
  | Cancelled
  | Rejected
deriving DecidableEq

/-- Observable state after a run: the artifact list state.generatedBlobs,
the canvas dimensions, the progress toast visibility, and the terminal
status. -/
structure RunResult (α : Type) where
  blobs : List (Page α)
  canvasW : Int
  canvasH : Int
  toast : Bool
  status : RunStatus
deriving DecidableEq

/-- The cancellation flag as seen by the checkpoint read numbered t:
cancelProcess (line 661) sets the flag at some point, modelled as the
clock value from which on every read returns true. -/
def cancelSeen (cancelAt : Option Nat) (t : Nat) : Bool :=
  match cancelAt with
  | none => false
  | some c => decide (c ≤ t)

/-- One tile as constructed by the loop body, lines 220-264: cell origin
from lines 221-224 (Math.floor(i / realCols) is Int.fdiv and the
JavaScript % operator is Int.tmod), content from the try/catch of lines
229-261 driven by the decode outcome, and the number label of line 264. -/
def mkTile (cfg : GenConfig) (decodeOk : Nat → Bool) (imgDims : Nat → ℚ × ℚ)
    (cellW cellH : Int) (i g : Nat) : Tile :=
  let r : Int := (i : Int).fdiv cfg.cols
  let c : Int := (i : Int).tmod cfg.cols
  let x : Int := c * (cellW + cfg.gap)
  let y : Int := r * (cellH + cfg.gap)
  { globalIdx := g
    x := x
    y := y
    image :=
      if decodeOk g
      then TileImage.drawn
        (coverDraw (imgDims g).1 (imgDims g).2 (x : ℚ) (y : ℚ) (cellW : ℚ) (cellH : ℚ))
      else TileImage.placeholder
    number := if cfg.showNum then some (cfg.startNum + (g : Int)) else none }

/-- The inner drawing loop, lines 214-265, for m remaining tiles: i is the
in-group index, g the global image index, t the clock of the cancellation
read at line 215 for the current tile.  Returns none when the flag is
seen set (the throw at line 215, which aborts the group so that no
artifact is produced for it), and the list of drawn tiles otherwise. -/
def renderTiles (cfg : GenConfig) (decodeOk : Nat → Bool) (imgDims : Nat → ℚ × ℚ)
    (cancelAt : Option Nat) (cellW cellH : Int) :
    (i g t m : Nat) → Option (List Tile)
  | _, _, _, 0 => some []
  | i, g, t, m + 1 =>
    if cancelSeen cancelAt t then none
    else
      match renderTiles cfg decodeOk imgDims cancelAt cellW cellH (i + 1) (g + 1) (t + 1) m with
      | none => none
      | some ts => some (mkTile cfg decodeOk imgDims cellW cellH i g :: ts)

/-- The group loop, lines 189-289: rem groups remain, b is the current
group index, t the clock of the group-start cancellation read (line 190),
acc the artifacts produced so far, cw and ch the current canvas
dimensions.  A completed group appends its page and resets the canvas to
1 x 1 (line 288); a flag seen at the group-start read breaks out of the
loop (line 190); a flag seen inside the tile loop aborts the group with
the canvas still at page dimensions (throw at line 215, caught at line
293).  The finally block (line 297) hides the toast on every path. -/
def runGroups (cfg : GenConfig) (images : List α) (bs : Nat)
    (decodeOk : Nat → Bool) (imgDims : Nat → ℚ × ℚ) (cancelAt : Option Nat) :
    (rem b t : Nat) → List (Page α) → Int → Int → RunResult α
  | 0, _, _, acc, cw, ch => ⟨acc, cw, ch, false, RunStatus.Completed⟩
  | rem + 1, b, t, acc, cw, ch =>
    if cancelSeen cancelAt t then ⟨acc, cw, ch, false, RunStatus.Cancelled⟩
    else
      let slice := (images.drop (b * bs)).take bs
      let m := slice.length
      let cellW := cellWidthOf cfg.cols cfg.gap
      let cellH := cellHeightOf cellW cfg.ratio
      let pw := pageWidthOf cfg.cols cfg.gap
      let ph := pageHeightOf cfg.cols cfg.gap cfg.ratio m
      match renderTiles cfg decodeOk imgDims cancelAt cellW cellH 0 (b * bs) (t + 1) m with
      | none => ⟨acc, pw, ph, false, RunStatus.Cancelled⟩
      | some ts =>
        runGroups cfg images bs decodeOk imgDims cancelAt rem (b + 1) (t + 1 + m)
          (acc ++ [⟨b, slice, ts, pw, ph⟩]) 1 1

/-- generate(), lines 164-299, for an already-snapshotted configuration.
The guard at line 165 returns before touching any state when the image
list is empty (the prior artifact list, canvas and toast are untouched);
otherwise the artifact list is cleared (line 175), batchSize and
totalBatches are computed (lines 185-186; Math.ceil of the exact
quotient), and the group loop runs.  On every call path of the loop,
batchSize is nonzero, and whenever totalBatches is positive, batchSize is
positive, so taking bs.toNat for the slicing arithmetic is faithful. -/
def generate (cfg : GenConfig) (images : List α) (decodeOk : Nat → Bool)
    (imgDims : Nat → ℚ × ℚ) (cancelAt : Option Nat)
    (prior : List (Page α)) (toast : Bool) (cw ch : Int) : RunResult α :=
  if images.length = 0 then ⟨prior, cw, ch, toast, RunStatus.Rejected⟩
  else
    let bs : Int := cfg.cols * cfg.rows
    let totalBatches : Int := jsCeilDiv (images.length : ℚ) (bs : ℚ)
    runGroups cfg images bs.toNat decodeOk imgDims cancelAt totalBatches.toNat 0 0 [] cw ch

/-- generate() with the raw input reads of lines 178-183 and 305 made
explicit: cols and rows default to 3, gap to 0 and startNumber to 1
through the parseInt(v) || d idiom, so a raw value of 0 (or an
unparseable value) silently becomes the default. -/
def generateFromRaw (rawCols rawRows rawGap rawStart : Option Int) (ratio : ℚ)
    (showNum : Bool) (images : List α) (decodeOk : Nat → Bool)
    (imgDims : Nat → ℚ × ℚ) (cancelAt : Option Nat)
    (prior : List (Page α)) (toast : Bool) (cw ch : Int) : RunResult α :=
  generate
    { cols := parseIntOr rawCols 3
      rows := parseIntOr rawRows 3
      gap := parseIntOr rawGap 0
      ratio := ratio
      showNum := showNum
      startNum := parseIntOr rawStart 1 }
    images decodeOk imgDims cancelAt prior toast cw ch

/-- A stored image record: IndexedDB key (autoincremented id) and display
name, as used by removeDuplicates (lines 461-477). -/
structure Img where
  id : Nat
  name : String
deriving DecidableEq

/-- Lines 467-473: scan the in-memory image list in current order,
collecting the ids of every image whose name was already seen. -/
def deleteIdsOf : List Img → List String → List Nat
  | [], _ => []
  | img :: rest, seen =>
    if img.name ∈ seen then img.id :: deleteIdsOf rest seen
    else deleteIdsOf rest (img.name :: seen)

/-- removeDuplicates (lines 461-477): the duplicate ids are computed from
the in-memory list (current sequence order), deleted from the store, and
then refreshImagesFromDB (lines 94-108) rebuilds the in-memory list from
the store, whose getAll returns records in ascending key order — that is,
in the order of the db list, not of the in-memory list.  Returns the new
in-memory list (equal to the new store contents). -/
def removeDuplicates (images db : List Img) : List Img :=
  let dels := deleteIdsOf images []
  db.filter (fun r => decide (r.id ∉ dels))

/-- Keep-first-per-name deduplication in the order of the input list,
written from the words of claim C10 (the claimed behaviour, to be
compared with removeDuplicates). -/
def keepFirstByName : List Img → List String → List Img
  | [], _ => []
  | img :: rest, seen =>
    if img.name ∈ seen then keepFirstByName rest seen
    else img :: keepFirstByName rest (img.name :: seen)

/-- The tile list produced by an uninterrupted inner loop of m tiles
starting at in-group index i and global index g. -/
def tilesFor (cfg : GenConfig) (decodeOk : Nat → Bool) (imgDims : Nat → ℚ × ℚ)
    (cellW cellH : Int) : (i g m : Nat) → List Tile
  | _, _, 0 => []
  | i, g, m + 1 =>
    mkTile cfg decodeOk imgDims cellW cellH i g ::
      tilesFor cfg decodeOk imgDims cellW cellH (i + 1) (g + 1) m

/-- The page produced by an uninterrupted group b: the same slice,
geometry and tile list as the body of runGroups. -/
def pageFor (cfg : GenConfig) (images : List α) (bs : Nat)
    (decodeOk : Nat → Bool) (imgDims : Nat → ℚ × ℚ) (b : Nat) : Page α :=
  let slice := (images.drop (b * bs)).take bs
  let cellW := cellWidthOf cfg.cols cfg.gap
  let cellH := cellHeightOf cellW cfg.ratio
  ⟨b, slice, tilesFor cfg decodeOk imgDims cellW cellH 0 (b * bs) slice.length,
    pageWidthOf cfg.cols cfg.gap,
    pageHeightOf cfg.cols cfg.gap cfg.ratio slice.length⟩

/-- The pages produced by j consecutive uninterrupted groups starting at
group index b. -/
def pagesFor (cfg : GenConfig) (images : List α) (bs : Nat)
    (decodeOk : Nat → Bool) (imgDims : Nat → ℚ × ℚ) : (b j : Nat) → List (Page α)
  | _, 0 => []
  | b, j + 1 =>
    pageFor cfg images bs decodeOk imgDims b ::
      pagesFor cfg images bs decodeOk imgDims (b + 1) j

/-- The number of images in group b. -/
def groupSize (images : List α) (bs b : Nat) : Nat :=
  ((images.drop (b * bs)).take bs).length

/-- The number of cancellation-checkpoint reads consumed by j consecutive
uninterrupted groups starting at group index b: one group-start read plus
one read per tile, per group. -/
def clockSpan (images : List α) (bs : Nat) : (b j : Nat) → Nat
  | _, 0 => 0
  | b, j + 1 => (1 + groupSize images bs b) + clockSpan images bs (b + 1) j

/-- Fixture decode oracle for concrete runs: every decode succeeds. -/
def allOkDecode : Nat → Bool := fun _ => true

/-- Fixture dimension oracle for concrete runs: every image is 1 x 1. -/
def unitDims : Nat → ℚ × ℚ := fun _ => (1, 1)

/-- Fixture configuration: 2 x 2 grid, no gap, square tiles, numbering on. -/
def cfg22 : GenConfig := ⟨2, 2, 0, 1, true, 1⟩

/-- Fixture configuration: 1 x 1 grid, no gap, square tiles, numbering on. -/
def cfg11 : GenConfig := ⟨1, 1, 0, 1, true, 1⟩

/-- Fixture configuration: 5 columns with a 200 gap (unclamped branch). -/
def cfg51 : GenConfig := ⟨5, 1, 200, 1, false, 1⟩

/-- Fixture configuration: 6 columns, no gap (clamped branch). -/
def cfg61 : GenConfig := ⟨6, 1, 0, 1, false, 1⟩

/-- Fixture decode oracle: exactly the image with global index 1 fails. -/
def failAt1 : Nat → Bool := fun k => decide (k ≠ 1)

theorem tilesFor_length (cfg : GenConfig) (decodeOk : Nat → Bool)
    (imgDims : Nat → ℚ × ℚ) (cellW cellH : Int) :
    ∀ m i g, (tilesFor cfg decodeOk imgDims cellW cellH i g m).length = m := by
  intro m
  induction m with
  | zero => intro i g; rfl
  | succ m ih => intro i g; simp [tilesFor, ih]

theorem tilesFor_map_globalIdx (cfg : GenConfig) (decodeOk : Nat → Bool)
    (imgDims : Nat → ℚ × ℚ) (cellW cellH : Int) :
    ∀ m i g, (tilesFor cfg decodeOk imgDims cellW cellH i g m).map Tile.globalIdx =
      List.range' g m := by
  intro m
  induction m with
  | zero => intro i g; rfl
  | succ m ih => intro i g; simp [tilesFor, mkTile, List.range'_succ, ih]

theorem tilesFor_mem (cfg : GenConfig) (decodeOk : Nat → Bool)
    (imgDims : Nat → ℚ × ℚ) (cellW cellH : Int) :
    ∀ m i g tl, tl ∈ tilesFor cfg decodeOk imgDims cellW cellH i g m →
      ∃ j, j < m ∧ tl = mkTile cfg decodeOk imgDims cellW cellH (i + j) (g + j) := by
  intro m
  induction m with
  | zero => intro i g tl h; simp [tilesFor] at h
  | succ m ih =>
    intro i g tl h
    simp only [tilesFor, List.mem_cons] at h
    rcases h with h | h
    · exact ⟨0, Nat.succ_pos m, by simpa using h⟩
    · obtain ⟨j, hj, he⟩ := ih (i + 1) (g + 1) tl h
      exact ⟨j + 1, by omega, by simpa [Nat.add_assoc, Nat.add_comm 1 j] using he⟩

theorem renderTiles_none (cfg : GenConfig) (decodeOk : Nat → Bool)
    (imgDims : Nat → ℚ × ℚ) (cellW cellH : Int) :
    ∀ m i g t, renderTiles cfg decodeOk imgDims none cellW cellH i g t m =
      some (tilesFor cfg decodeOk imgDims cellW cellH i g m) := by
  intro m
  induction m with
  | zero => intro i g t; rfl
  | succ m ih => intro i g t; simp [renderTiles, cancelSeen, tilesFor, ih]

theorem renderTiles_before (cfg : GenConfig) (decodeOk : Nat → Bool)
    (imgDims : Nat → ℚ × ℚ) (cellW cellH : Int) (T : Nat) :
    ∀ m i g t, t + m ≤ T →
      renderTiles cfg decodeOk imgDims (some T) cellW cellH i g t m =
        some (tilesFor cfg decodeOk imgDims cellW cellH i g m) := by
  intro m
  induction m with
  | zero => intro i g t _; rfl
  | succ m ih =>
    intro i g t ht
    have h1 : cancelSeen (some T) t = false := by
      simp [cancelSeen]; omega
    simp [renderTiles, h1, tilesFor, ih (i + 1) (g + 1) (t + 1) (by omega)]

theorem renderTiles_hit (cfg : GenConfig) (decodeOk : Nat → Bool)
    (imgDims : Nat → ℚ × ℚ) (cellW cellH : Int) (T : Nat) :
    ∀ m i g t, t ≤ T → T < t + m →
      renderTiles cfg decodeOk imgDims (some T) cellW cellH i g t m = none := by
  intro m
  induction m with
  | zero => intro i g t h1 h2; omega
  | succ m ih =>
    intro i g t h1 h2
    by_cases he : T ≤ t
    · have : cancelSeen (some T) t = true := by simp [cancelSeen]; omega
      simp [renderTiles, this]
    · have h3 : cancelSeen (some T) t = false := by simp [cancelSeen]; omega
      simp [renderTiles, h3, ih (i + 1) (g + 1) (t + 1) (by omega) (by omega)]

theorem runGroups_none (cfg : GenConfig) (images : List α) (bs : Nat)
    (decodeOk : Nat → Bool) (imgDims : Nat → ℚ × ℚ) :
    ∀ rem b t acc cw ch,
      runGroups cfg images bs decodeOk imgDims none rem b t acc cw ch =
        ⟨acc ++ pagesFor cfg images bs decodeOk imgDims b rem,
          if rem = 0 then cw else 1, if rem = 0 then ch else 1,
          false, RunStatus.Completed⟩ := by
  intro rem
  induction rem with
  | zero => intro b t acc cw ch; simp [runGroups, pagesFor]
  | succ rem ih =>
    intro b t acc cw ch
    simp only [runGroups, cancelSeen, Bool.false_eq_true, if_false,
      renderTiles_none, ih, pagesFor]
    simp [pageFor]

theorem pagesFor_length (cfg : GenConfig) (images : List α) (bs : Nat)
    (decodeOk : Nat → Bool) (imgDims : Nat → ℚ × ℚ) :
    ∀ j b, (pagesFor cfg images bs decodeOk imgDims b j).length = j := by
  intro j
  induction j with
  | zero => intro b; rfl
  | succ j ih => intro b; simp [pagesFor, ih]

theorem pagesFor_getElemOpt (cfg : GenConfig) (images : List α) (bs : Nat)
    (decodeOk : Nat → Bool) (imgDims : Nat → ℚ × ℚ) :
    ∀ j b k, k < j →
      (pagesFor cfg images bs decodeOk imgDims b j)[k]? =
        some (pageFor cfg images bs decodeOk imgDims (b + k)) := by
  intro j
  induction j with
  | zero => intro b k hk; omega
  | succ j ih =>
    intro b k hk
    match k with
    | 0 => simp [pagesFor]
    | k + 1 =>
      have := ih (b + 1) k (by omega)
      simpa [pagesFor, Nat.add_assoc, Nat.add_comm 1 k] using this

theorem pagesFor_take (cfg : GenConfig) (images : List α) (bs : Nat)
    (decodeOk : Nat → Bool) (imgDims : Nat → ℚ × ℚ) :
    ∀ j k b, k ≤ j →
      (pagesFor cfg images bs decodeOk imgDims b j).take k =
        pagesFor cfg images bs decodeOk imgDims b k := by
  intro j
  induction j with
  | zero => intro k b hk; interval_cases k; rfl
  | succ j ih =>
    intro k b hk
    match k with
    | 0 => rfl
    | k + 1 =>
      simp only [pagesFor, List.take_succ_cons]
      rw [ih k (b + 1) (by omega)]

/-- The two defining bounds of the ceiling division (n + bs - 1) / bs. -/
theorem ceilDiv_bounds (n bs : ℕ) (hbs : 1 ≤ bs) :
    n ≤ bs * ((n + bs - 1) / bs) ∧ bs * ((n + bs - 1) / bs) < n + bs := by
  have hdm := Nat.div_add_mod (n + bs - 1) bs
  have hml : (n + bs - 1) % bs < bs := Nat.mod_lt _ (by omega)
  generalize bs * ((n + bs - 1) / bs) = A at hdm ⊢
  omega

/-- Math.ceil(n / bs) on exact rationals agrees with the ℕ ceiling
division (n + bs - 1) / bs. -/
theorem jsCeilDiv_natCast (n bs : ℕ) (hbs : 1 ≤ bs) :
    jsCeilDiv (n : ℚ) (bs : ℚ) = (((n + bs - 1) / bs : ℕ) : ℤ) := by
  have hb0 : (0 : ℚ) < (bs : ℚ) := by exact_mod_cast hbs
  obtain ⟨h1, h2⟩ := ceilDiv_bounds n bs hbs
  have hA : (n : ℚ) ≤ (bs : ℚ) * (((n + bs - 1) / bs : ℕ) : ℚ) := by exact_mod_cast h1
  have hB : (bs : ℚ) * (((n + bs - 1) / bs : ℕ) : ℚ) < (n : ℚ) + bs := by exact_mod_cast h2
  rw [jsCeilDiv, Int.ceil_eq_iff, Int.cast_natCast]
  constructor
  · rw [lt_div_iff₀ hb0]
    nlinarith
  · rw [div_le_iff₀ hb0]
    nlinarith

theorem jsCeilDiv_natCast_toNat (n bs : ℕ) (hbs : 1 ≤ bs) :
    (jsCeilDiv (n : ℚ) (bs : ℚ)).toNat = (n + bs - 1) / bs := by
  rw [jsCeilDiv_natCast n bs hbs, Int.toNat_natCast]

/-- Every group except possibly the last is full. -/
theorem groupSize_full (n bs b : ℕ) (hbs : 1 ≤ bs)
    (hb : b + 1 < (n + bs - 1) / bs) : min bs (n - b * bs) = bs := by
  obtain ⟨h1, h2⟩ := ceilDiv_bounds n bs hbs
  have h3 : bs * (b + 2) ≤ bs * ((n + bs - 1) / bs) := Nat.mul_le_mul_left _ (by omega)
  have h4 : bs * (b + 2) = bs * b + bs * 2 := by ring
  have h5 : b * bs = bs * b := Nat.mul_comm b bs
  omega

/-- The last group holds n mod bs images, or bs when that remainder is
zero. -/
theorem groupSize_last (n bs b : ℕ) (hbs : 1 ≤ bs) (hn : 1 ≤ n)
    (hb : b + 1 = (n + bs - 1) / bs) :
    min bs (n - b * bs) = if n % bs = 0 then bs else n % bs := by
  obtain ⟨h1, h2⟩ := ceilDiv_bounds n bs hbs
  have hdm := Nat.div_add_mod n bs
  have hml : n % bs < bs := Nat.mod_lt _ (by omega)
  by_cases hr : n % bs = 0
  · have hQD : (n + bs - 1) / bs = n / bs := by
      have h3 : bs * (n / bs) ≤ bs * ((n + bs - 1) / bs) := by omega
      have hle := Nat.le_of_mul_le_mul_left h3 (show 0 < bs by omega)
      have hx : bs * (n / bs + 1) = bs * (n / bs) + bs := by ring
      have h4 : bs * ((n + bs - 1) / bs) < bs * (n / bs + 1) := by omega
      have hge := Nat.lt_of_mul_lt_mul_left h4
      omega
    have hD1 : 1 ≤ n / bs := by
      rcases Nat.eq_zero_or_pos (n / bs) with h0 | h0
      · rw [h0, Nat.mul_zero] at hdm; omega
      · exact h0
    have hb' : b = n / bs - 1 := by omega
    have hsub : (n / bs - 1) * bs = n / bs * bs - bs := by
      rw [Nat.sub_mul, one_mul]
    have hcomm : n / bs * bs = bs * (n / bs) := Nat.mul_comm _ _
    have hPbs : bs ≤ bs * (n / bs) := Nat.le_mul_of_pos_right bs hD1
    rw [if_pos hr, hb', hsub, hcomm]
    generalize bs * (n / bs) = P at hdm hPbs ⊢
    omega
  · have hQD : (n + bs - 1) / bs = n / bs + 1 := by
      have h3 : bs * (n / bs) < bs * ((n + bs - 1) / bs) := by omega
      have hlt := Nat.lt_of_mul_lt_mul_left h3
      have hx : bs * (n / bs + 2) = bs * (n / bs) + 2 * bs := by ring
      have h4 : bs * ((n + bs - 1) / bs) < bs * (n / bs + 2) := by omega
      have hlt2 := Nat.lt_of_mul_lt_mul_left h4
      omega
    have hb' : b = n / bs := by omega
    have hcomm : n / bs * bs = bs * (n / bs) := Nat.mul_comm _ _
    rw [if_neg hr, hb', hcomm]
    generalize bs * (n / bs) = P at hdm ⊢
    omega

theorem groupSize_eq (images : List α) (bs b : Nat) :
    groupSize images bs b = min bs (images.length - b * bs) := by
  simp [groupSize]

/-- As long as every group in the window is full, each group consumes
exactly 1 + bs checkpoint reads. -/
theorem clockSpan_full (images : List α) (bs : Nat) :
    ∀ j b, (b + j) * bs ≤ images.length →
      clockSpan images bs b j = j * (1 + bs) := by
  intro j
  induction j with
  | zero => intro b _; simp [clockSpan]
  | succ j ih =>
    intro b hb
    have h1 : (b + 1) * bs ≤ (b + j + 1) * bs :=
      Nat.mul_le_mul_right bs (by omega)
    have h2 : (b + 1) * bs = b * bs + bs := by ring
    have hfull : groupSize images bs b = bs := by
      rw [groupSize_eq]
      have h3 : (b + (j + 1)) * bs = (b + j + 1) * bs := by ring
      omega
    rw [clockSpan, hfull, ih (b + 1) (by
      have h3 : (b + 1 + j) * bs = (b + (j + 1)) * bs := by ring
      omega)]
    ring

/-- A flag seen at the group-start read (line 190) breaks out of the loop
with the artifacts and canvas unchanged. -/
theorem runGroups_break (cfg : GenConfig) (images : List α) (bs : Nat)
    (decodeOk : Nat → Bool) (imgDims : Nat → ℚ × ℚ) (T : Nat) :
    ∀ rem b t acc (cw ch : Int), T ≤ t → 1 ≤ rem →
      runGroups cfg images bs decodeOk imgDims (some T) rem b t acc cw ch =
        ⟨acc, cw, ch, false, RunStatus.Cancelled⟩ := by
  intro rem b t acc cw ch hT hrem
  match rem, hrem with
  | rem + 1, _ =>
    have : cancelSeen (some T) t = true := by simp [cancelSeen]; omega
    simp [runGroups, this]

/-- Running j uninterrupted groups advances the loop: the cancellation
point T lies at or after every checkpoint those groups read. -/
theorem runGroups_advance (cfg : GenConfig) (images : List α) (bs : Nat)
    (decodeOk : Nat → Bool) (imgDims : Nat → ℚ × ℚ) (T : Nat) :
    ∀ j rem b t acc (cw ch : Int), j ≤ rem →
      t + clockSpan images bs b j ≤ T →
      runGroups cfg images bs decodeOk imgDims (some T) rem b t acc cw ch =
        runGroups cfg images bs decodeOk imgDims (some T) (rem - j) (b + j)
          (t + clockSpan images bs b j)
          (acc ++ pagesFor cfg images bs decodeOk imgDims b j)
          (if j = 0 then cw else 1) (if j = 0 then ch else 1) := by
  intro j
  induction j with
  | zero => intro rem b t acc cw ch _ _; simp [clockSpan, pagesFor]
  | succ j ih =>
    intro rem b t acc cw ch hj hT
    match rem, hj with
    | rem + 1, _ =>
      have hspan : clockSpan images bs b (j + 1) =
          (1 + groupSize images bs b) + clockSpan images bs (b + 1) j := rfl
      have hc : cancelSeen (some T) t = false := by
        simp [cancelSeen]; omega
      have hrt : renderTiles cfg decodeOk imgDims (some T)
          (cellWidthOf cfg.cols cfg.gap)
          (cellHeightOf (cellWidthOf cfg.cols cfg.gap) cfg.ratio)
          0 (b * bs) (t + 1) ((images.drop (b * bs)).take bs).length =
          some (tilesFor cfg decodeOk imgDims (cellWidthOf cfg.cols cfg.gap)
            (cellHeightOf (cellWidthOf cfg.cols cfg.gap) cfg.ratio)
            0 (b * bs) ((images.drop (b * bs)).take bs).length) := by
        apply renderTiles_before
        have : ((images.drop (b * bs)).take bs).length = groupSize images bs b := rfl
        omega
      simp only [runGroups, hc, Bool.false_eq_true, if_false, hrt]
      have hpf : pageFor cfg images bs decodeOk imgDims b =
          ⟨b, (images.drop (b * bs)).take bs,
            tilesFor cfg decodeOk imgDims (cellWidthOf cfg.cols cfg.gap)
              (cellHeightOf (cellWidthOf cfg.cols cfg.gap) cfg.ratio) 0 (b * bs)
              ((images.drop (b * bs)).take bs).length,
            pageWidthOf cfg.cols cfg.gap,
            pageHeightOf cfg.cols cfg.gap cfg.ratio
              ((images.drop (b * bs)).take bs).length⟩ := rfl
      rw [← hpf]
      rw [ih rem (b + 1) (t + 1 + ((images.drop (b * bs)).take bs).length)
        (acc ++ [pageFor cfg images bs decodeOk imgDims b]) 1 1 (by omega) (by
          have : ((images.drop (b * bs)).take bs).length = groupSize images bs b := rfl
          omega)]
      have harr : t + 1 + ((images.drop (b * bs)).take bs).length +
          clockSpan images bs (b + 1) j = t + clockSpan images bs b (j + 1) := by
        have : ((images.drop (b * bs)).take bs).length = groupSize images bs b := rfl
        omega
      have hacc : (acc ++ [pageFor cfg images bs decodeOk imgDims b]) ++
          pagesFor cfg images bs decodeOk imgDims (b + 1) j =
          acc ++ pagesFor cfg images bs decodeOk imgDims b (j + 1) := by
        simp [pagesFor]
      rw [harr, hacc]
      have hrem : rem - j = rem + 1 - (j + 1) := by omega
      have hb1 : b + 1 + j = b + (j + 1) := by omega
      rw [hrem, hb1]
      simp

/-- A flag seen first at a tile read (line 215) aborts the group via the
throw: no artifact is appended for it and the canvas keeps the page
dimensions set on lines 207-208. -/
theorem runGroups_midgroup (cfg : GenConfig) (images : List α) (bs : Nat)
    (decodeOk : Nat → Bool) (imgDims : Nat → ℚ × ℚ) (T : Nat) :
    ∀ rem b t acc (cw ch : Int), 1 ≤ rem → t < T →
      T ≤ t + groupSize images bs b →
      runGroups cfg images bs decodeOk imgDims (some T) rem b t acc cw ch =
        ⟨acc, pageWidthOf cfg.cols cfg.gap,
          pageHeightOf cfg.cols cfg.gap cfg.ratio (groupSize images bs b),
          false, RunStatus.Cancelled⟩ := by
  intro rem b t acc cw ch hrem h1 h2
  match rem, hrem with
  | rem + 1, _ =>
    have hc : cancelSeen (some T) t = false := by simp [cancelSeen]; omega
    have hm : ((images.drop (b * bs)).take bs).length = groupSize images bs b := rfl
    have hrt : renderTiles cfg decodeOk imgDims (some T)
        (cellWidthOf cfg.cols cfg.gap)
        (cellHeightOf (cellWidthOf cfg.cols cfg.gap) cfg.ratio)
        0 (b * bs) (t + 1) ((images.drop (b * bs)).take bs).length = none := by
      apply renderTiles_hit
      · omega
      · omega
    rw [hm] at hrt
    simp only [runGroups, hc, Bool.false_eq_true, if_false, hm, hrt]

/-- For a nonempty image list and a positive batch size, generate enters
the group loop with cleared artifacts and ceiling-division many groups. -/
theorem generate_run_eq (cfg : GenConfig) (images : List α)
    (decodeOk : Nat → Bool) (imgDims : Nat → ℚ × ℚ) (cancelAt : Option Nat)
    (prior : List (Page α)) (toast : Bool) (cw ch : Int)
    (hc : 1 ≤ cfg.cols) (hr : 1 ≤ cfg.rows) (hn : 1 ≤ images.length) :
    generate cfg images decodeOk imgDims cancelAt prior toast cw ch =
      runGroups cfg images (cfg.cols * cfg.rows).toNat decodeOk imgDims cancelAt
        ((images.length + (cfg.cols * cfg.rows).toNat - 1) /
          (cfg.cols * cfg.rows).toNat) 0 0 [] cw ch := by
  have hne : ¬ images.length = 0 := by omega
  have hpos : (0 : ℤ) < cfg.cols * cfg.rows := mul_pos (by omega) (by omega)
  have h1 : ((cfg.cols * cfg.rows).toNat : ℤ) = cfg.cols * cfg.rows :=
    Int.toNat_of_nonneg (by omega)
  have hbsN : 1 ≤ (cfg.cols * cfg.rows).toNat := by omega
  have htb : (jsCeilDiv (images.length : ℚ) ((cfg.cols * cfg.rows : ℤ) : ℚ)).toNat =
      (images.length + (cfg.cols * cfg.rows).toNat - 1) /
        (cfg.cols * cfg.rows).toNat := by
    rw [← h1, Int.cast_natCast]
    exact jsCeilDiv_natCast_toNat images.length (cfg.cols * cfg.rows).toNat hbsN
  simp only [generate, hne, if_false, htb]

/-- Claim C1: for every run of generate with columns and rows at least 1
and no cancellation, the number of artifacts equals the ceiling of
imageCount / (columns * rows) (here written with the ℕ ceiling division
(n + bs - 1) / bs); group b is exactly the slice
[b * batchSize, (b + 1) * batchSize) of the image sequence, so every group
except possibly the last holds exactly batchSize images and the last holds
imageCount mod batchSize images, or a full batchSize when that remainder
is zero; and when the image sequence is empty no group is produced (the
prior artifact list is untouched). -/
theorem c1_group_partition (cfg : GenConfig) (images : List α)
    (decodeOk : Nat → Bool) (imgDims : Nat → ℚ × ℚ)
    (prior : List (Page α)) (toast : Bool) (cw ch : Int)
    (hc : 1 ≤ cfg.cols) (hr : 1 ≤ cfg.rows) :
    (images.length = 0 →
      (generate cfg images decodeOk imgDims none prior toast cw ch).blobs = prior) ∧
    (1 ≤ images.length →
      (generate cfg images decodeOk imgDims none prior toast cw ch).status =
        RunStatus.Completed ∧
      (generate cfg images decodeOk imgDims none prior toast cw ch).blobs.length =
        (images.length + (cfg.cols * cfg.rows).toNat - 1) /
          (cfg.cols * cfg.rows).toNat ∧
      ∀ b pg,
        (generate cfg images decodeOk imgDims none prior toast cw ch).blobs[b]? =
          some pg →
        pg.imgs =
          (images.drop (b * (cfg.cols * cfg.rows).toNat)).take
            (cfg.cols * cfg.rows).toNat ∧
        (b + 1 <
            (generate cfg images decodeOk imgDims none prior toast cw ch).blobs.length →
          pg.imgs.length = (cfg.cols * cfg.rows).toNat) ∧
        (b + 1 =
            (generate cfg images decodeOk imgDims none prior toast cw ch).blobs.length →
          pg.imgs.length =
            if images.length % (cfg.cols * cfg.rows).toNat = 0
            then (cfg.cols * cfg.rows).toNat
            else images.length % (cfg.cols * cfg.rows).toNat)) := by
  constructor
  · intro h0
    simp [generate, h0]
  · intro hn
    have hbs1 : 1 ≤ (cfg.cols * cfg.rows).toNat := by
      have : (0 : ℤ) < cfg.cols * cfg.rows := mul_pos (by omega) (by omega)
      omega
    rw [generate_run_eq cfg images decodeOk imgDims none prior toast cw ch hc hr hn,
      runGroups_none]
    refine ⟨rfl, by simp [pagesFor_length], ?_⟩
    intro b pg hpg
    simp only [List.nil_append, pagesFor_length] at hpg ⊢
    have hb' : b < (images.length + (cfg.cols * cfg.rows).toNat - 1) /
        (cfg.cols * cfg.rows).toNat := by
      by_contra hge
      push_neg at hge
      rw [List.getElem?_eq_none (by rw [pagesFor_length]; omega)] at hpg
      exact Option.noConfusion hpg
    rw [pagesFor_getElemOpt cfg images (cfg.cols * cfg.rows).toNat decodeOk imgDims
      _ 0 b hb', Nat.zero_add] at hpg
    obtain rfl := Option.some.inj hpg
    refine ⟨rfl, ?_, ?_⟩
    · intro hlt
      have hsz := groupSize_full images.length (cfg.cols * cfg.rows).toNat b hbs1 hlt
      simpa [pageFor, List.length_take, List.length_drop] using hsz
    · intro heq
      have hsz := groupSize_last images.length (cfg.cols * cfg.rows).toNat b hbs1 hn heq
      simpa [pageFor, List.length_take, List.length_drop] using hsz

/-- Witness for claim C1: a concrete 2 x 2 run over 10 images yields 3
groups of sizes 4, 4 and 2, matching the example scenario of the spec. -/
theorem c1_group_partition_witness :
    (generate cfg22 [0, 1, 2, 3, 4, 5, 6, 7, 8, 9] allOkDecode unitDims none
        ([] : List (Page Nat)) false 1 1).blobs.length = 3 ∧
    ∀ pg, (generate cfg22 [0, 1, 2, 3, 4, 5, 6, 7, 8, 9] allOkDecode unitDims none
        ([] : List (Page Nat)) false 1 1).blobs[2]? = some pg →
      pg.imgs.length = 2 := by
  have h := (c1_group_partition cfg22 [0, 1, 2, 3, 4, 5, 6, 7, 8, 9] allOkDecode
    unitDims ([] : List (Page Nat)) false 1 1 (by norm_num [cfg22])
    (by norm_num [cfg22])).2 (by norm_num)
  obtain ⟨-, hlen, hgrp⟩ := h
  have hlen3 : (generate cfg22 [0, 1, 2, 3, 4, 5, 6, 7, 8, 9] allOkDecode unitDims none
      ([] : List (Page Nat)) false 1 1).blobs.length = 3 := by
    rw [hlen]; decide
  refine ⟨hlen3, ?_⟩
  intro pg hpg
  have h2 := hgrp 2 pg hpg
  have hfin := h2.2.2 (by omega)
  rw [hfin]
  decide

theorem pagesFor_mem (cfg : GenConfig) (images : List α) (bs : Nat)
    (decodeOk : Nat → Bool) (imgDims : Nat → ℚ × ℚ) :
    ∀ j b p, p ∈ pagesFor cfg images bs decodeOk imgDims b j →
      ∃ k, k < j ∧ p = pageFor cfg images bs decodeOk imgDims (b + k) := by
  intro j
  induction j with
  | zero => intro b p hp; simp [pagesFor] at hp
  | succ j ih =>
    intro b p hp
    simp only [pagesFor, List.mem_cons] at hp
    rcases hp with hp | hp
    · exact ⟨0, Nat.succ_pos j, by simpa using hp⟩
    · obtain ⟨k, hk, he⟩ := ih (b + 1) p hp
      exact ⟨k + 1, by omega, by simpa [Nat.add_assoc, Nat.add_comm 1 k] using he⟩

/-- Claim C4: for every page of a run with columns at least 1, gap at
least 0 and positive aspect ratio, the cell width is the base 1500 unless
columns * 1500 exceeds MAX_CANVAS_DIM = 8192, in which case it is
floor((8192 - columns * gap) / columns); the cell height is
floor(cellWidth / ratio); the page width is
columns * cellWidth + (columns - 1) * gap; and the page height is
realRows * cellHeight + (realRows - 1) * gap where realRows is the
ceiling of imagesInGroup / columns. -/
theorem c4_page_geometry (cfg : GenConfig) (images : List α)
    (decodeOk : Nat → Bool) (imgDims : Nat → ℚ × ℚ) (toast : Bool) (cw ch : Int)
    (hc : 1 ≤ cfg.cols) (hr : 1 ≤ cfg.rows) (hg : 0 ≤ cfg.gap)
    (ha : 0 < cfg.ratio) :
    ∀ p ∈ (generate cfg images decodeOk imgDims none [] toast cw ch).blobs,
      p.width = cfg.cols *
          (if cfg.cols * 1500 > 8192
           then ⌊((8192 - cfg.cols * cfg.gap : ℤ) : ℚ) / (cfg.cols : ℚ)⌋
           else 1500) + (cfg.cols - 1) * cfg.gap ∧
      p.height = ⌈(p.imgs.length : ℚ) / (cfg.cols : ℚ)⌉ *
          ⌊(((if cfg.cols * 1500 > 8192
              then ⌊((8192 - cfg.cols * cfg.gap : ℤ) : ℚ) / (cfg.cols : ℚ)⌋
              else 1500) : ℤ) : ℚ) / cfg.ratio⌋ +
        (⌈(p.imgs.length : ℚ) / (cfg.cols : ℚ)⌉ - 1) * cfg.gap := by
  intro p hp
  rcases Nat.eq_zero_or_pos images.length with h0 | hn
  · rw [generate] at hp
    simp [h0] at hp
  · rw [generate_run_eq cfg images decodeOk imgDims none [] toast cw ch hc hr hn] at hp
    rw [runGroups_none] at hp
    simp only [List.nil_append] at hp
    obtain ⟨k, hk, hpe⟩ := pagesFor_mem cfg images (cfg.cols * cfg.rows).toNat
      decodeOk imgDims _ 0 p hp
    subst hpe
    constructor
    · simp [pageFor, pageWidthOf, cellWidthOf, jsFloorDiv, MAX_CANVAS_DIM]
    · simp [pageFor, pageHeightOf, cellWidthOf, cellHeightOf, jsFloorDiv, jsCeilDiv,
        MAX_CANVAS_DIM]

/-- Witness for claim C4: the clamped branch at 6 columns on one image
gives cell width 1365 and page width 8190. -/
theorem c4_page_geometry_witness :
    (generate cfg61 [(0 : Nat)] allOkDecode unitDims none [] false 1 1).blobs ≠ [] ∧
    ∀ p ∈ (generate cfg61 [(0 : Nat)] allOkDecode unitDims none [] false 1 1).blobs,
      p.width = cfg61.cols *
          (if cfg61.cols * 1500 > 8192
           then ⌊((8192 - cfg61.cols * cfg61.gap : ℤ) : ℚ) / (cfg61.cols : ℚ)⌋
           else 1500) + (cfg61.cols - 1) * cfg61.gap := by
  constructor
  · rw [generate_run_eq cfg61 [(0 : Nat)] allOkDecode unitDims none [] false 1 1
      (by norm_num [cfg61]) (by norm_num [cfg61]) (by norm_num), runGroups_none]
    simp only [List.nil_append]
    apply List.ne_nil_of_length_pos
    rw [pagesFor_length]
    decide
  · intro p hp
    exact (c4_page_geometry cfg61 [(0 : Nat)] allOkDecode unitDims false 1 1
      (by norm_num [cfg61]) (by norm_num [cfg61]) (by norm_num [cfg61])
      (by norm_num [cfg61]) p hp).1

/-- In the clamped branch the page width is bounded by the cap: cols
times the floored quotient stays below 8192 - cols * gap, and adding the
(cols - 1) gaps still leaves one gap of slack. -/
theorem pageWidthOf_le_cap (cols gap : Int) (hc : 1 ≤ cols) (hg : 0 ≤ gap)
    (hclamp : cols * 1500 > MAX_CANVAS_DIM) :
    pageWidthOf cols gap ≤ MAX_CANVAS_DIM := by
  rw [pageWidthOf, cellWidthOf, if_pos hclamp, jsFloorDiv]
  have hc0 : (0 : ℚ) < (cols : ℚ) := by exact_mod_cast hc
  have hfl : (⌊((MAX_CANVAS_DIM - cols * gap : ℤ) : ℚ) / (cols : ℚ)⌋ : ℚ) ≤
      ((MAX_CANVAS_DIM - cols * gap : ℤ) : ℚ) / (cols : ℚ) := Int.floor_le _
  have h2 : (cols : ℚ) * (⌊((MAX_CANVAS_DIM - cols * gap : ℤ) : ℚ) / (cols : ℚ)⌋ : ℚ) ≤
      ((MAX_CANVAS_DIM - cols * gap : ℤ) : ℚ) := by
    rw [mul_comm]
    exact (le_div_iff₀ hc0).mp hfl
  have h3 : cols * ⌊((MAX_CANVAS_DIM - cols * gap : ℤ) : ℚ) / (cols : ℚ)⌋ ≤
      MAX_CANVAS_DIM - cols * gap := by exact_mod_cast h2
  have h4 : (cols - 1) * gap = cols * gap - gap := by ring
  linarith

/-- Counterexample to claim C5: with 5 columns (unclamped, since
5 * 1500 = 7500 stays at or below 8192), a gap of 200, square ratio and
5 images - all within the claim's hypotheses - the produced page is
5 * 1500 + 4 * 200 = 8300 units wide, exceeding MAX_CANVAS_DIM = 8192. -/
theorem c5_surface_bound_counterexample :
    ∃ p ∈ (generate cfg51 [0, 1, 2, 3, 4] allOkDecode unitDims none
        ([] : List (Page Nat)) false 1 1).blobs, p.width > MAX_CANVAS_DIM := by
  norm_num [generate, runGroups, renderTiles, mkTile, cellWidthOf, cellHeightOf,
    jsCeilDiv, jsFloorDiv, MAX_CANVAS_DIM, cancelSeen, coverDraw, pageWidthOf,
    pageHeightOf, cfg51, allOkDecode, unitDims]

/-- Claim C5 amended: the computed page width never exceeds
MAX_CANVAS_DIM = 8192 when the clamped branch is taken, that is, when
columns * 1500 > 8192; outside that branch the width can exceed the cap
through the gap term, and the page height is not capped at all. -/
theorem c5_surface_bound_amended (cfg : GenConfig) (images : List α)
    (decodeOk : Nat → Bool) (imgDims : Nat → ℚ × ℚ) (toast : Bool) (cw ch : Int)
    (hc : 1 ≤ cfg.cols) (hr : 1 ≤ cfg.rows) (hg : 0 ≤ cfg.gap)
    (hclamp : cfg.cols * 1500 > MAX_CANVAS_DIM) :
    ∀ p ∈ (generate cfg images decodeOk imgDims none [] toast cw ch).blobs,
      p.width ≤ MAX_CANVAS_DIM := by
  intro p hp
  rcases Nat.eq_zero_or_pos images.length with h0 | hn
  · rw [generate] at hp
    simp [h0] at hp
  · rw [generate_run_eq cfg images decodeOk imgDims none [] toast cw ch hc hr hn,
      runGroups_none] at hp
    simp only [List.nil_append] at hp
    obtain ⟨k, hk, hpe⟩ := pagesFor_mem cfg images (cfg.cols * cfg.rows).toNat
      decodeOk imgDims _ 0 p hp
    subst hpe
    have : (pageFor cfg images (cfg.cols * cfg.rows).toNat decodeOk imgDims
        (0 + k)).width = pageWidthOf cfg.cols cfg.gap := rfl
    rw [this]
    exact pageWidthOf_le_cap cfg.cols cfg.gap hc hg hclamp

/-- Witness for the amended claim C5: the 6-column clamped run stays
within the cap. -/
theorem c5_surface_bound_amended_witness :
    ((generate cfg61 [(0 : Nat)] allOkDecode unitDims none [] false 1 1).blobs.all
      (fun p => decide (p.width ≤ MAX_CANVAS_DIM))) = true := by
  rw [List.all_eq_true]
  intro p hp
  rw [decide_eq_true_eq]
  exact c5_surface_bound_amended cfg61 [(0 : Nat)] allOkDecode unitDims false 1 1
    (by norm_num [cfg61]) (by norm_num [cfg61]) (by norm_num [cfg61])
    (by norm_num [cfg61, MAX_CANVAS_DIM]) p hp

/-- Claim C7: for every successfully decoded image of positive dimensions
drawn into a cell of positive width and height, the clip region equals
the destination cell rectangle; when the image aspect ratio exceeds the
cell aspect ratio the image is scaled to cell height (draw width =
cellH * imageRatio) and horizontally centered with equal crop on both
sides; otherwise it is scaled to cell width and vertically centered with
equal crop above and below; and any point inside both the clip region and
the drawn rectangle - the only pixels the draw can modify - lies inside
the intended cell. -/
theorem c7_cover_crop (imgW imgH x y cellW cellH : ℚ) (s : DrawSpec)
    (hs : s = coverDraw imgW imgH x y cellW cellH)
    (hW : 0 < imgW) (hH : 0 < imgH) (hcW : 0 < cellW) (hcH : 0 < cellH) :
    (s.clipX = x ∧ s.clipY = y ∧ s.clipW = cellW ∧ s.clipH = cellH) ∧
    (imgW / imgH > cellW / cellH →
      s.dw = cellH * (imgW / imgH) ∧ s.dh = cellH ∧
      x - s.dx = (s.dx + s.dw) - (x + cellW) ∧ s.dy = y) ∧
    (¬ imgW / imgH > cellW / cellH →
      s.dh = cellW / (imgW / imgH) ∧ s.dw = cellW ∧
      y - s.dy = (s.dy + s.dh) - (y + cellH) ∧ s.dx = x) ∧
    (∀ px py : ℚ,
      s.clipX ≤ px → px ≤ s.clipX + s.clipW →
      s.clipY ≤ py → py ≤ s.clipY + s.clipH →
      s.dx ≤ px → px ≤ s.dx + s.dw → s.dy ≤ py → py ≤ s.dy + s.dh →
      x ≤ px ∧ px ≤ x + cellW ∧ y ≤ py ∧ py ≤ y + cellH) := by
  by_cases hcase : imgW / imgH > cellW / cellH
  · rw [hs, coverDraw, if_pos hcase]
    refine ⟨⟨rfl, rfl, rfl, rfl⟩, ?_, ?_, ?_⟩
    · intro _
      refine ⟨rfl, rfl, by ring, rfl⟩
    · intro hn
      exact absurd hcase hn
    · intro px py h1 h2 h3 h4 _ _ _ _
      exact ⟨h1, h2, h3, h4⟩
  · rw [hs, coverDraw, if_neg hcase]
    refine ⟨⟨rfl, rfl, rfl, rfl⟩, ?_, ?_, ?_⟩
    · intro hgt
      exact absurd hgt hcase
    · intro _
      refine ⟨rfl, rfl, by ring, rfl⟩
    · intro px py h1 h2 h3 h4 _ _ _ _
      exact ⟨h1, h2, h3, h4⟩

/-- Witness for claim C7: a 4 x 2 image in a 2 x 2 cell at the origin is
scaled to cell height, drawn 4 wide, and cropped 1 on each side. -/
theorem c7_cover_crop_witness :
    (coverDraw 4 2 0 0 2 2).clipW = 2 ∧
    (coverDraw 4 2 0 0 2 2).dw = 2 * (4 / 2 : ℚ) ∧
    (0 : ℚ) - (coverDraw 4 2 0 0 2 2).dx =
      ((coverDraw 4 2 0 0 2 2).dx + (coverDraw 4 2 0 0 2 2).dw) - (0 + 2) := by
  have h := c7_cover_crop 4 2 0 0 2 2 (coverDraw 4 2 0 0 2 2) rfl
    (by norm_num) (by norm_num) (by norm_num) (by norm_num)
  obtain ⟨hclip, hwide, -, -⟩ := h
  have hw := hwide (by norm_num)
  exact ⟨hclip.2.2.1, hw.1, hw.2.2.1⟩

theorem tilesFor_filterMap_number (cfg : GenConfig) (decodeOk : Nat → Bool)
    (imgDims : Nat → ℚ × ℚ) (cellW cellH : Int) (hshow : cfg.showNum = true) :
    ∀ m i g, (tilesFor cfg decodeOk imgDims cellW cellH i g m).filterMap Tile.number =
      (List.range' g m).map (fun (k : ℕ) => cfg.startNum + (k : ℤ)) := by
  intro m
  induction m with
  | zero => intro i g; rfl
  | succ m ih =>
    intro i g
    rw [List.range'_succ]
    simp only [tilesFor, List.filterMap_cons, mkTile, hshow, if_true, List.map_cons]
    rw [ih]

/-- Concatenating the tile labels of consecutive uninterrupted groups
covering the whole image list yields one contiguous arithmetic ramp. -/
theorem pagesFor_flat_number (cfg : GenConfig) (images : List α) (bs : Nat)
    (decodeOk : Nat → Bool) (imgDims : Nat → ℚ × ℚ)
    (hshow : cfg.showNum = true) :
    ∀ j b, images.length ≤ (b + j) * bs →
      ((pagesFor cfg images bs decodeOk imgDims b j).flatMap Page.tiles).filterMap
          Tile.number =
        (List.range' (b * bs) (images.length - b * bs)).map
          (fun (k : ℕ) => cfg.startNum + (k : ℤ)) := by
  intro j
  induction j with
  | zero =>
    intro b hb
    have h0 : images.length - b * bs = 0 := by
      have : (b + 0) * bs = b * bs := by ring
      omega
    simp [pagesFor, h0]
  | succ j ih =>
    intro b hb
    have hm : ((images.drop (b * bs)).take bs).length =
        min bs (images.length - b * bs) := by
      simp
    simp only [pagesFor, List.flatMap_cons, List.filterMap_append]
    have htiles : (pageFor cfg images bs decodeOk imgDims b).tiles =
        tilesFor cfg decodeOk imgDims (cellWidthOf cfg.cols cfg.gap)
          (cellHeightOf (cellWidthOf cfg.cols cfg.gap) cfg.ratio)
          0 (b * bs) ((images.drop (b * bs)).take bs).length := rfl
    rw [htiles, tilesFor_filterMap_number cfg decodeOk imgDims _ _ hshow, hm]
    have hrec := ih (b + 1) (by
      have h1 : (b + 1 + j) * bs = (b + (j + 1)) * bs := by ring
      omega)
    rw [hrec]
    by_cases hfull : bs ≤ images.length - b * bs
    · have hmin : min bs (images.length - b * bs) = bs := by omega
      rw [hmin, ← List.map_append]
      have hb1 : (b + 1) * bs = b * bs + bs := by ring
      rw [hb1, List.range'_append_1]
      have : images.length - (b * bs + bs) + bs = images.length - b * bs := by
        have h2 : (b + 1) * bs = b * bs + bs := by ring
        omega
      rw [this]
    · have hmin : min bs (images.length - b * bs) = images.length - b * bs := by
        omega
      have hz : images.length - (b + 1) * bs = 0 := by
        have h2 : (b + 1) * bs = b * bs + bs := by ring
        omega
      rw [hmin, hz]
      simp

/-- Claim C3: when numbering is enabled with effective start number N, the
label drawn on the k-th tile overall (0-indexed across all groups of an
uncancelled run) is exactly N + k: the full label sequence is
N, N+1, ..., N+n-1 with no duplicates and no gaps, and it is strictly
increasing. -/
theorem c3_numbering (cfg : GenConfig) (images : List α)
    (decodeOk : Nat → Bool) (imgDims : Nat → ℚ × ℚ) (toast : Bool) (cw ch : Int)
    (hc : 1 ≤ cfg.cols) (hr : 1 ≤ cfg.rows) (hshow : cfg.showNum = true) :
    (((generate cfg images decodeOk imgDims none [] toast cw ch).blobs.flatMap
        Page.tiles).filterMap Tile.number =
      (List.range images.length).map (fun (k : ℕ) => cfg.startNum + (k : ℤ))) ∧
    (((generate cfg images decodeOk imgDims none [] toast cw ch).blobs.flatMap
        Page.tiles).filterMap Tile.number).Pairwise (· < ·) := by
  have hmain : ((generate cfg images decodeOk imgDims none [] toast cw ch).blobs.flatMap
      Page.tiles).filterMap Tile.number =
      (List.range images.length).map (fun (k : ℕ) => cfg.startNum + (k : ℤ)) := by
    rcases Nat.eq_zero_or_pos images.length with h0 | hn
    · rw [generate]
      simp [h0]
    · have hbs1 : 1 ≤ (cfg.cols * cfg.rows).toNat := by
        have : (0 : ℤ) < cfg.cols * cfg.rows := mul_pos (by omega) (by omega)
        omega
      rw [generate_run_eq cfg images decodeOk imgDims none [] toast cw ch hc hr hn,
        runGroups_none]
      simp only [List.nil_append]
      rw [pagesFor_flat_number cfg images (cfg.cols * cfg.rows).toNat decodeOk imgDims
        hshow _ 0 (by
          obtain ⟨h1, h2⟩ := ceilDiv_bounds images.length (cfg.cols * cfg.rows).toNat hbs1
          have hcm : (0 + (images.length + (cfg.cols * cfg.rows).toNat - 1) /
              (cfg.cols * cfg.rows).toNat) * (cfg.cols * cfg.rows).toNat =
              (cfg.cols * cfg.rows).toNat * ((images.length + (cfg.cols * cfg.rows).toNat - 1) /
                (cfg.cols * cfg.rows).toNat) := by ring
          omega)]
      rw [List.range_eq_range']
      simp
  refine ⟨hmain, ?_⟩
  rw [hmain, List.pairwise_map]
  have := List.pairwise_lt_range images.length
  apply this.imp
  intro a b hab
  omega

/-- Witness for claim C3: a 1 x 1 run over three images labels the tiles
1, 2, 3 in order. -/
theorem c3_numbering_witness :
    ((generate cfg11 [10, 20, 30] allOkDecode unitDims none ([] : List (Page Nat))
        false 1 1).blobs.flatMap Page.tiles).filterMap Tile.number =
      [1, 2, 3] := by
  have h := (c3_numbering cfg11 [10, 20, 30] allOkDecode unitDims false 1 1
    (by norm_num [cfg11]) (by norm_num [cfg11]) (by norm_num [cfg11])).1
  rw [h]
  decide

/-- Claim C6: decode failures never abort the batch or the run - for any
pattern of decode failures (in particular when exactly one image of a
group fails), an uncancelled run still completes with exactly totalGroups
artifacts; the failing tiles are rendered as the placeholder (grey fill
plus error glyph) and every successfully decoded tile is drawn normally
through the cover-crop draw at its cell. -/
theorem c6_decode_isolation (cfg : GenConfig) (images : List α)
    (decodeOk : Nat → Bool) (imgDims : Nat → ℚ × ℚ) (toast : Bool) (cw ch : Int)
    (hc : 1 ≤ cfg.cols) (hr : 1 ≤ cfg.rows) (hn : 1 ≤ images.length) :
    (generate cfg images decodeOk imgDims none [] toast cw ch).status =
      RunStatus.Completed ∧
    (generate cfg images decodeOk imgDims none [] toast cw ch).blobs.length =
      (images.length + (cfg.cols * cfg.rows).toNat - 1) /
        (cfg.cols * cfg.rows).toNat ∧
    ∀ p ∈ (generate cfg images decodeOk imgDims none [] toast cw ch).blobs,
      ∀ tl ∈ p.tiles,
        (decodeOk tl.globalIdx = false → tl.image = TileImage.placeholder) ∧
        (decodeOk tl.globalIdx = true → tl.image = TileImage.drawn
          (coverDraw (imgDims tl.globalIdx).1 (imgDims tl.globalIdx).2
            (tl.x : ℚ) (tl.y : ℚ)
            ((cellWidthOf cfg.cols cfg.gap : ℤ) : ℚ)
            ((cellHeightOf (cellWidthOf cfg.cols cfg.gap) cfg.ratio : ℤ) : ℚ))) := by
  rw [generate_run_eq cfg images decodeOk imgDims none [] toast cw ch hc hr hn,
    runGroups_none]
  refine ⟨rfl, by simp [pagesFor_length], ?_⟩
  intro p hp tl htl
  simp only [List.nil_append] at hp
  obtain ⟨k, hk, hpe⟩ := pagesFor_mem cfg images (cfg.cols * cfg.rows).toNat
    decodeOk imgDims _ 0 p hp
  subst hpe
  have htiles : (pageFor cfg images (cfg.cols * cfg.rows).toNat decodeOk imgDims
      (0 + k)).tiles =
      tilesFor cfg decodeOk imgDims (cellWidthOf cfg.cols cfg.gap)
        (cellHeightOf (cellWidthOf cfg.cols cfg.gap) cfg.ratio)
        0 ((0 + k) * (cfg.cols * cfg.rows).toNat)
        ((images.drop ((0 + k) * (cfg.cols * cfg.rows).toNat)).take
          (cfg.cols * cfg.rows).toNat).length := rfl
  rw [htiles] at htl
  obtain ⟨j, hj, hte⟩ := tilesFor_mem cfg decodeOk imgDims _ _ _ _ _ tl htl
  subst hte
  constructor
  · intro hfail
    simp only [mkTile] at hfail ⊢
    rw [hfail]
    rfl
  · intro hok
    simp only [mkTile] at hok ⊢
    rw [hok]
    rfl

/-- Witness for claim C6: a 2 x 2 run over four images where exactly image
1 fails to decode still yields one artifact, with tile 1 a placeholder. -/
theorem c6_decode_isolation_witness :
    (generate cfg22 [0, 1, 2, 3] failAt1 unitDims none ([] : List (Page Nat))
        false 1 1).blobs.length = 1 ∧
    ∀ p ∈ (generate cfg22 [0, 1, 2, 3] failAt1 unitDims none ([] : List (Page Nat))
        false 1 1).blobs,
      ∀ tl ∈ p.tiles, failAt1 tl.globalIdx = false →
        tl.image = TileImage.placeholder := by
  have h := c6_decode_isolation cfg22 [0, 1, 2, 3] failAt1 unitDims false 1 1
    (by norm_num [cfg22]) (by norm_num [cfg22]) (by norm_num)
  refine ⟨by rw [h.2.1]; decide, ?_⟩
  intro p hp tl htl hf
  exact (h.2.2 p hp tl htl).1 hf

theorem prefix_full_bound (n bs k : ℕ) (hbs : 1 ≤ bs)
    (hk : k + 1 < (n + bs - 1) / bs) : (k + 1) * bs ≤ n := by
  obtain ⟨h1, h2⟩ := ceilDiv_bounds n bs hbs
  have h3 : (k + 2) * bs ≤ ((n + bs - 1) / bs) * bs :=
    Nat.mul_le_mul_right bs (by omega)
  have h4 : ((n + bs - 1) / bs) * bs = bs * ((n + bs - 1) / bs) := Nat.mul_comm _ _
  have h5 : (k + 2) * bs = (k + 1) * bs + bs := by ring
  omega

theorem prefix_bound (n bs k : ℕ) (hbs : 1 ≤ bs)
    (hk : k < (n + bs - 1) / bs) : k * bs ≤ n := by
  obtain ⟨h1, h2⟩ := ceilDiv_bounds n bs hbs
  have h3 : (k + 1) * bs ≤ ((n + bs - 1) / bs) * bs :=
    Nat.mul_le_mul_right bs (by omega)
  have h4 : ((n + bs - 1) / bs) * bs = bs * ((n + bs - 1) / bs) := Nat.mul_comm _ _
  have h5 : (k + 1) * bs = k * bs + bs := by ring
  omega

theorem n_pos_of_tb_pos (n bs : ℕ) (hbs : 1 ≤ bs)
    (h : 1 ≤ (n + bs - 1) / bs) : 1 ≤ n := by
  rcases Nat.eq_zero_or_pos n with h0 | h1
  · subst h0
    rw [Nat.div_eq_of_lt (by omega)] at h
    omega
  · exact h1

/-- Claim C2: with columns and rows at least 1, if the cancel flag becomes
set after group k completes and before group k + 1 starts (checkpoint
clock (k+1)(1+batchSize)), the run ends Cancelled with exactly the k + 1
artifacts of groups 0..k - the prefix of the uncancelled run's output -
and no artifact for group k + 1; if the flag becomes set mid-group, at
the read before tile i of group k (clock k(1+batchSize)+1+i), group k is
aborted without an artifact and exactly the k earlier artifacts are
retained, again ending Cancelled. -/
theorem c2_cancellation (cfg : GenConfig) (images : List α)
    (decodeOk : Nat → Bool) (imgDims : Nat → ℚ × ℚ) (toast : Bool) (cw ch : Int)
    (hc : 1 ≤ cfg.cols) (hr : 1 ≤ cfg.rows) :
    (∀ k, k + 1 < (images.length + (cfg.cols * cfg.rows).toNat - 1) /
        (cfg.cols * cfg.rows).toNat →
      (generate cfg images decodeOk imgDims
          (some ((k + 1) * (1 + (cfg.cols * cfg.rows).toNat))) [] toast cw ch).status =
        RunStatus.Cancelled ∧
      (generate cfg images decodeOk imgDims
          (some ((k + 1) * (1 + (cfg.cols * cfg.rows).toNat))) [] toast cw ch).blobs.length =
        k + 1 ∧
      (generate cfg images decodeOk imgDims
          (some ((k + 1) * (1 + (cfg.cols * cfg.rows).toNat))) [] toast cw ch).blobs =
        (generate cfg images decodeOk imgDims none [] toast cw ch).blobs.take (k + 1)) ∧
    (∀ k i, k < (images.length + (cfg.cols * cfg.rows).toNat - 1) /
        (cfg.cols * cfg.rows).toNat →
      i < min (cfg.cols * cfg.rows).toNat
        (images.length - k * (cfg.cols * cfg.rows).toNat) →
      (generate cfg images decodeOk imgDims
          (some (k * (1 + (cfg.cols * cfg.rows).toNat) + 1 + i)) [] toast cw ch).status =
        RunStatus.Cancelled ∧
      (generate cfg images decodeOk imgDims
          (some (k * (1 + (cfg.cols * cfg.rows).toNat) + 1 + i)) [] toast cw ch).blobs.length =
        k ∧
      (generate cfg images decodeOk imgDims
          (some (k * (1 + (cfg.cols * cfg.rows).toNat) + 1 + i)) [] toast cw ch).blobs =
        (generate cfg images decodeOk imgDims none [] toast cw ch).blobs.take k) := by
  have hbs1 : 1 ≤ (cfg.cols * cfg.rows).toNat := by
    have : (0 : ℤ) < cfg.cols * cfg.rows := mul_pos (by omega) (by omega)
    omega
  constructor
  · intro k hk
    have hn : 1 ≤ images.length :=
      n_pos_of_tb_pos images.length (cfg.cols * cfg.rows).toNat hbs1 (by omega)
    have hfull : (0 + (k + 1)) * (cfg.cols * cfg.rows).toNat ≤ images.length := by
      have h1 := prefix_full_bound images.length (cfg.cols * cfg.rows).toNat k hbs1 hk
      have h2 : (0 + (k + 1)) * (cfg.cols * cfg.rows).toNat =
          (k + 1) * (cfg.cols * cfg.rows).toNat := by ring
      omega
    have hspan : clockSpan images (cfg.cols * cfg.rows).toNat 0 (k + 1) =
        (k + 1) * (1 + (cfg.cols * cfg.rows).toNat) :=
      clockSpan_full images (cfg.cols * cfg.rows).toNat (k + 1) 0 hfull
    have e1 := generate_run_eq cfg images decodeOk imgDims
      (some ((k + 1) * (1 + (cfg.cols * cfg.rows).toNat))) [] toast cw ch hc hr hn
    have e2 := runGroups_advance cfg images (cfg.cols * cfg.rows).toNat decodeOk
      imgDims ((k + 1) * (1 + (cfg.cols * cfg.rows).toNat)) (k + 1)
      ((images.length + (cfg.cols * cfg.rows).toNat - 1) / (cfg.cols * cfg.rows).toNat)
      0 0 [] cw ch (by omega) (by simp only [hspan]; omega)
    have e3 := runGroups_break cfg images (cfg.cols * cfg.rows).toNat decodeOk
      imgDims ((k + 1) * (1 + (cfg.cols * cfg.rows).toNat))
      ((images.length + (cfg.cols * cfg.rows).toNat - 1) / (cfg.cols * cfg.rows).toNat
        - (k + 1))
      (0 + (k + 1)) (0 + clockSpan images (cfg.cols * cfg.rows).toNat 0 (k + 1))
      ([] ++ pagesFor cfg images (cfg.cols * cfg.rows).toNat decodeOk imgDims 0 (k + 1))
      (if k + 1 = 0 then cw else 1) (if k + 1 = 0 then ch else 1)
      (by simp only [hspan]; omega) (by omega)
    have efin := e1.trans (e2.trans e3)
    refine ⟨by rw [efin], by rw [efin]; simp [pagesFor_length], ?_⟩
    rw [efin, generate_run_eq cfg images decodeOk imgDims none [] toast cw ch hc hr hn,
      runGroups_none]
    simp only [List.nil_append]
    exact (pagesFor_take cfg images (cfg.cols * cfg.rows).toNat decodeOk imgDims
      _ (k + 1) 0 (by omega)).symm
  · intro k i hk hi
    have hn : 1 ≤ images.length :=
      n_pos_of_tb_pos images.length (cfg.cols * cfg.rows).toNat hbs1 (by omega)
    have hfull : (0 + k) * (cfg.cols * cfg.rows).toNat ≤ images.length := by
      have h1 := prefix_bound images.length (cfg.cols * cfg.rows).toNat k hbs1 hk
      have h2 : (0 + k) * (cfg.cols * cfg.rows).toNat =
          k * (cfg.cols * cfg.rows).toNat := by ring
      omega
    have hspan : clockSpan images (cfg.cols * cfg.rows).toNat 0 k =
        k * (1 + (cfg.cols * cfg.rows).toNat) :=
      clockSpan_full images (cfg.cols * cfg.rows).toNat k 0 hfull
    have hgs : groupSize images (cfg.cols * cfg.rows).toNat (0 + k) =
        min (cfg.cols * cfg.rows).toNat
          (images.length - k * (cfg.cols * cfg.rows).toNat) := by
      rw [Nat.zero_add]
      exact groupSize_eq images (cfg.cols * cfg.rows).toNat k
    have e1 := generate_run_eq cfg images decodeOk imgDims
      (some (k * (1 + (cfg.cols * cfg.rows).toNat) + 1 + i)) [] toast cw ch hc hr hn
    have e2 := runGroups_advance cfg images (cfg.cols * cfg.rows).toNat decodeOk
      imgDims (k * (1 + (cfg.cols * cfg.rows).toNat) + 1 + i) k
      ((images.length + (cfg.cols * cfg.rows).toNat - 1) / (cfg.cols * cfg.rows).toNat)
      0 0 [] cw ch (by omega) (by simp only [hspan]; omega)
    have e3 := runGroups_midgroup cfg images (cfg.cols * cfg.rows).toNat decodeOk
      imgDims (k * (1 + (cfg.cols * cfg.rows).toNat) + 1 + i)
      ((images.length + (cfg.cols * cfg.rows).toNat - 1) / (cfg.cols * cfg.rows).toNat
        - k)
      (0 + k) (0 + clockSpan images (cfg.cols * cfg.rows).toNat 0 k)
      ([] ++ pagesFor cfg images (cfg.cols * cfg.rows).toNat decodeOk imgDims 0 k)
      (if k = 0 then cw else 1) (if k = 0 then ch else 1)
      (by omega) (by simp only [hspan]; omega) (by simp only [hspan, hgs]; omega)
    have efin := e1.trans (e2.trans e3)
    refine ⟨by rw [efin], by rw [efin]; simp [pagesFor_length], ?_⟩
    rw [efin, generate_run_eq cfg images decodeOk imgDims none [] toast cw ch hc hr hn,
      runGroups_none]
    simp only [List.nil_append]
    exact (pagesFor_take cfg images (cfg.cols * cfg.rows).toNat decodeOk imgDims
      _ k 0 (by omega)).symm

/-- Witness for claim C2: a 1 x 1 run over three images, cancelled at the
group-1 boundary (clock 2), ends Cancelled with exactly one artifact;
cancelled at the first tile read (clock 1), it ends Cancelled with none. -/
theorem c2_cancellation_witness :
    (generate cfg11 [10, 20, 30] allOkDecode unitDims (some 2)
        ([] : List (Page Nat)) false 1 1).status = RunStatus.Cancelled ∧
    (generate cfg11 [10, 20, 30] allOkDecode unitDims (some 2)
        ([] : List (Page Nat)) false 1 1).blobs.length = 1 ∧
    (generate cfg11 [10, 20, 30] allOkDecode unitDims (some 1)
        ([] : List (Page Nat)) false 1 1).blobs.length = 0 := by
  have h := c2_cancellation cfg11 [10, 20, 30] allOkDecode unitDims false 1 1
    (by norm_num [cfg11]) (by norm_num [cfg11])
  have ha := h.1 0 (by decide)
  have hb := h.2 0 0 (by decide) (by decide)
  refine ⟨?_, ?_, ?_⟩
  · simpa [cfg11] using ha.1
  · simpa [cfg11] using ha.2.1
  · simpa [cfg11] using hb.2.1

/-- Counterexample to claim C9: cancelling at the very first tile read
(clock 1) of a 1 x 1 run over one image ends the run Cancelled with the
canvas still at its page dimensions 1500 x 1500 - the reset to 1 x 1 on
line 288 is skipped by the throw, so the surface is not released. -/
theorem c9_surface_release_counterexample :
    (generate cfg11 [(10 : Nat)] allOkDecode unitDims (some 1) [] false 1 1).status =
      RunStatus.Cancelled ∧
    (generate cfg11 [(10 : Nat)] allOkDecode unitDims (some 1) [] false 1 1).canvasW =
      1500 ∧
    (generate cfg11 [(10 : Nat)] allOkDecode unitDims (some 1) [] false 1 1).canvasH =
      1500 := by
  norm_num [generate, runGroups, renderTiles, mkTile, cellWidthOf, cellHeightOf,
    jsCeilDiv, jsFloorDiv, MAX_CANVAS_DIM, cancelSeen, coverDraw, pageWidthOf,
    pageHeightOf, cfg11, allOkDecode, unitDims]

/-- Claim C9 amended: the toast is cleared on every terminal path, and the
canvas is reset to the minimal 1 x 1 immediately after each group's
artifact is encoded - so a run that completes, and a run cancelled at a
group boundary, both end with the surface released; but a run cancelled
mid-group ends with the canvas still at the page dimensions of the
aborted group. -/
theorem c9_surface_release_amended (cfg : GenConfig) (images : List α)
    (decodeOk : Nat → Bool) (imgDims : Nat → ℚ × ℚ) (toast : Bool) (cw ch : Int)
    (hc : 1 ≤ cfg.cols) (hr : 1 ≤ cfg.rows) (hn : 1 ≤ images.length) :
    ((generate cfg images decodeOk imgDims none [] toast cw ch).canvasW = 1 ∧
      (generate cfg images decodeOk imgDims none [] toast cw ch).canvasH = 1 ∧
      (generate cfg images decodeOk imgDims none [] toast cw ch).toast = false ∧
      (generate cfg images decodeOk imgDims none [] toast cw ch).status =
        RunStatus.Completed) ∧
    (∀ k, k + 1 < (images.length + (cfg.cols * cfg.rows).toNat - 1) /
        (cfg.cols * cfg.rows).toNat →
      (generate cfg images decodeOk imgDims
          (some ((k + 1) * (1 + (cfg.cols * cfg.rows).toNat))) [] toast cw ch).canvasW =
        1 ∧
      (generate cfg images decodeOk imgDims
          (some ((k + 1) * (1 + (cfg.cols * cfg.rows).toNat))) [] toast cw ch).canvasH =
        1 ∧
      (generate cfg images decodeOk imgDims
          (some ((k + 1) * (1 + (cfg.cols * cfg.rows).toNat))) [] toast cw ch).toast =
        false) ∧
    (∀ k i, k < (images.length + (cfg.cols * cfg.rows).toNat - 1) /
        (cfg.cols * cfg.rows).toNat →
      i < min (cfg.cols * cfg.rows).toNat
        (images.length - k * (cfg.cols * cfg.rows).toNat) →
      (generate cfg images decodeOk imgDims
          (some (k * (1 + (cfg.cols * cfg.rows).toNat) + 1 + i)) [] toast cw ch).canvasW =
        pageWidthOf cfg.cols cfg.gap ∧
      (generate cfg images decodeOk imgDims
          (some (k * (1 + (cfg.cols * cfg.rows).toNat) + 1 + i)) [] toast cw ch).canvasH =
        pageHeightOf cfg.cols cfg.gap cfg.ratio
          (min (cfg.cols * cfg.rows).toNat
            (images.length - k * (cfg.cols * cfg.rows).toNat)) ∧
      (generate cfg images decodeOk imgDims
          (some (k * (1 + (cfg.cols * cfg.rows).toNat) + 1 + i)) [] toast cw ch).toast =
        false) := by
  have hbs1 : 1 ≤ (cfg.cols * cfg.rows).toNat := by
    have : (0 : ℤ) < cfg.cols * cfg.rows := mul_pos (by omega) (by omega)
    omega
  have htb1 : 1 ≤ (images.length + (cfg.cols * cfg.rows).toNat - 1) /
      (cfg.cols * cfg.rows).toNat := by
    obtain ⟨h1, h2⟩ := ceilDiv_bounds images.length (cfg.cols * cfg.rows).toNat hbs1
    by_contra hz
    push_neg at hz
    interval_cases h : (images.length + (cfg.cols * cfg.rows).toNat - 1) /
      (cfg.cols * cfg.rows).toNat
    · omega
  refine ⟨?_, ?_, ?_⟩
  · rw [generate_run_eq cfg images decodeOk imgDims none [] toast cw ch hc hr hn,
      runGroups_none]
    refine ⟨?_, ?_, rfl, rfl⟩
    · simp only []
      rw [if_neg (by omega)]
    · simp only []
      rw [if_neg (by omega)]
  · intro k hk
    have hfull : (0 + (k + 1)) * (cfg.cols * cfg.rows).toNat ≤ images.length := by
      have h1 := prefix_full_bound images.length (cfg.cols * cfg.rows).toNat k hbs1 hk
      have h2 : (0 + (k + 1)) * (cfg.cols * cfg.rows).toNat =
          (k + 1) * (cfg.cols * cfg.rows).toNat := by ring
      omega
    have hspan : clockSpan images (cfg.cols * cfg.rows).toNat 0 (k + 1) =
        (k + 1) * (1 + (cfg.cols * cfg.rows).toNat) :=
      clockSpan_full images (cfg.cols * cfg.rows).toNat (k + 1) 0 hfull
    have e1 := generate_run_eq cfg images decodeOk imgDims
      (some ((k + 1) * (1 + (cfg.cols * cfg.rows).toNat))) [] toast cw ch hc hr hn
    have e2 := runGroups_advance cfg images (cfg.cols * cfg.rows).toNat decodeOk
      imgDims ((k + 1) * (1 + (cfg.cols * cfg.rows).toNat)) (k + 1)
      ((images.length + (cfg.cols * cfg.rows).toNat - 1) / (cfg.cols * cfg.rows).toNat)
      0 0 [] cw ch (by omega) (by simp only [hspan]; omega)
    have e3 := runGroups_break cfg images (cfg.cols * cfg.rows).toNat decodeOk
      imgDims ((k + 1) * (1 + (cfg.cols * cfg.rows).toNat))
      ((images.length + (cfg.cols * cfg.rows).toNat - 1) / (cfg.cols * cfg.rows).toNat
        - (k + 1))
      (0 + (k + 1)) (0 + clockSpan images (cfg.cols * cfg.rows).toNat 0 (k + 1))
      ([] ++ pagesFor cfg images (cfg.cols * cfg.rows).toNat decodeOk imgDims 0 (k + 1))
      (if k + 1 = 0 then cw else 1) (if k + 1 = 0 then ch else 1)
      (by simp only [hspan]; omega) (by omega)
    have efin := e1.trans (e2.trans e3)
    rw [efin]
    refine ⟨?_, ?_, rfl⟩
    · simp only []
      rw [if_neg (by omega)]
    · simp only []
      rw [if_neg (by omega)]
  · intro k i hk hi
    have hfull : (0 + k) * (cfg.cols * cfg.rows).toNat ≤ images.length := by
      have h1 := prefix_bound images.length (cfg.cols * cfg.rows).toNat k hbs1 hk
      have h2 : (0 + k) * (cfg.cols * cfg.rows).toNat =
          k * (cfg.cols * cfg.rows).toNat := by ring
      omega
    have hspan : clockSpan images (cfg.cols * cfg.rows).toNat 0 k =
        k * (1 + (cfg.cols * cfg.rows).toNat) :=
      clockSpan_full images (cfg.cols * cfg.rows).toNat k 0 hfull
    have hgs : groupSize images (cfg.cols * cfg.rows).toNat (0 + k) =
        min (cfg.cols * cfg.rows).toNat
          (images.length - k * (cfg.cols * cfg.rows).toNat) := by
      rw [Nat.zero_add]
      exact groupSize_eq images (cfg.cols * cfg.rows).toNat k
    have e1 := generate_run_eq cfg images decodeOk imgDims
      (some (k * (1 + (cfg.cols * cfg.rows).toNat) + 1 + i)) [] toast cw ch hc hr hn
    have e2 := runGroups_advance cfg images (cfg.cols * cfg.rows).toNat decodeOk
      imgDims (k * (1 + (cfg.cols * cfg.rows).toNat) + 1 + i) k
      ((images.length + (cfg.cols * cfg.rows).toNat - 1) / (cfg.cols * cfg.rows).toNat)
      0 0 [] cw ch (by omega) (by simp only [hspan]; omega)
    have e3 := runGroups_midgroup cfg images (cfg.cols * cfg.rows).toNat decodeOk
      imgDims (k * (1 + (cfg.cols * cfg.rows).toNat) + 1 + i)
      ((images.length + (cfg.cols * cfg.rows).toNat - 1) / (cfg.cols * cfg.rows).toNat
        - k)
      (0 + k) (0 + clockSpan images (cfg.cols * cfg.rows).toNat 0 k)
      ([] ++ pagesFor cfg images (cfg.cols * cfg.rows).toNat decodeOk imgDims 0 k)
      (if k = 0 then cw else 1) (if k = 0 then ch else 1)
      (by omega) (by simp only [hspan]; omega) (by simp only [hspan, hgs]; omega)
    have efin := e1.trans (e2.trans e3)
    rw [efin]
    refine ⟨rfl, ?_, rfl⟩
    simp only []
    rw [hgs]

/-- Witness for the amended claim C9: the uncancelled 1 x 1 run over three
images ends with the canvas at 1 x 1 and the toast hidden, while the run
cancelled at the first tile read ends with the canvas at the page
dimensions. -/
theorem c9_surface_release_amended_witness :
    (generate cfg11 [10, 20, 30] allOkDecode unitDims none ([] : List (Page Nat))
        false 7 7).canvasW = 1 ∧
    (generate cfg11 [10, 20, 30] allOkDecode unitDims none ([] : List (Page Nat))
        false 7 7).toast = false ∧
    (generate cfg11 [10, 20, 30] allOkDecode unitDims (some 1)
        ([] : List (Page Nat)) false 7 7).canvasW = pageWidthOf cfg11.cols cfg11.gap := by
  have h := c9_surface_release_amended cfg11 [10, 20, 30] allOkDecode unitDims
    false 7 7 (by norm_num [cfg11]) (by norm_num [cfg11]) (by norm_num)
  have hmid := h.2.2 0 0 (by decide) (by decide)
  refine ⟨h.1.1, h.1.2.2.1, ?_⟩
  simpa [cfg11] using hmid.1

/-- Counterexample to claim C8: a request with a non-positive raw columns
value (0) and a nonempty image sequence is not rejected - the
parseInt(v) || 3 idiom of line 178 silently turns the 0 into the default
3, the run enters the loop, renders the group and produces an artifact. -/
theorem c8_invalid_config_counterexample :
    (generateFromRaw (some 0) (some 1) (some 0) (some 1) 1 false [(0 : Nat)]
        allOkDecode unitDims none [] false 1 1).status = RunStatus.Completed ∧
    (generateFromRaw (some 0) (some 1) (some 0) (some 1) 1 false [(0 : Nat)]
        allOkDecode unitDims none [] false 1 1).blobs.length = 1 := by
  norm_num [generateFromRaw, parseIntOr, generate, jsCeilDiv]
  rw [show (⌈(1 : ℚ) / 3⌉ : ℤ) = 1 from by norm_num [Int.ceil_eq_iff], Int.toNat_one]
  norm_num [runGroups, renderTiles, mkTile, cellWidthOf, cellHeightOf, jsCeilDiv,
    jsFloorDiv, MAX_CANVAS_DIM, cancelSeen, coverDraw, pageWidthOf, pageHeightOf,
    allOkDecode, unitDims]

/-- Claim C8 amended: only an empty image sequence is rejected before the
run starts - the early return of line 165 leaves the prior artifacts, the
canvas and the toast untouched; non-positive columns or rows are not
validated: a raw value of 0 (like an unparseable one) is silently
replaced by the default 3 and the request proceeds exactly as if 3 had
been entered. -/
theorem c8_invalid_config_amended (rawCols rawRows rawGap rawStart : Option Int)
    (ratio : ℚ) (showNum : Bool) (decodeOk : Nat → Bool) (imgDims : Nat → ℚ × ℚ)
    (cancelAt : Option Nat) (prior : List (Page α)) (toast : Bool) (cw ch : Int) :
    ((generateFromRaw rawCols rawRows rawGap rawStart ratio showNum ([] : List α)
        decodeOk imgDims cancelAt prior toast cw ch).status = RunStatus.Rejected ∧
      (generateFromRaw rawCols rawRows rawGap rawStart ratio showNum ([] : List α)
        decodeOk imgDims cancelAt prior toast cw ch).blobs = prior ∧
      (generateFromRaw rawCols rawRows rawGap rawStart ratio showNum ([] : List α)
        decodeOk imgDims cancelAt prior toast cw ch).canvasW = cw ∧
      (generateFromRaw rawCols rawRows rawGap rawStart ratio showNum ([] : List α)
        decodeOk imgDims cancelAt prior toast cw ch).canvasH = ch ∧
      (generateFromRaw rawCols rawRows rawGap rawStart ratio showNum ([] : List α)
        decodeOk imgDims cancelAt prior toast cw ch).toast = toast) ∧
    parseIntOr (some 0) 3 = 3 ∧
    (∀ images : List α,
      generateFromRaw (some 0) rawRows rawGap rawStart ratio showNum images
          decodeOk imgDims cancelAt prior toast cw ch =
        generateFromRaw (some 3) rawRows rawGap rawStart ratio showNum images
          decodeOk imgDims cancelAt prior toast cw ch) := by
  refine ⟨⟨rfl, rfl, rfl, rfl, rfl⟩, rfl, ?_⟩
  intro images
  rfl

theorem deleteIdsOf_subset (l : List Img) :
    ∀ seen x, x ∈ deleteIdsOf l seen → x ∈ l.map Img.id := by
  induction l with
  | nil => intro seen x hx; simp [deleteIdsOf] at hx
  | cons img rest ih =>
    intro seen x hx
    rw [deleteIdsOf] at hx
    by_cases hm : img.name ∈ seen
    · rw [if_pos hm] at hx
      rcases List.mem_cons.mp hx with hx | hx
      · simp [hx]
      · simp only [List.map_cons, List.mem_cons]
        exact Or.inr (ih seen x hx)
    · rw [if_neg hm] at hx
      simp only [List.map_cons, List.mem_cons]
      exact Or.inr (ih (img.name :: seen) x hx)

/-- Filtering a list by its own duplicate-name ids keeps exactly the first
occurrence of each name, provided the ids are pairwise distinct. -/
theorem filter_deleteIdsOf (l : List Img) (hids : (l.map Img.id).Nodup) :
    ∀ seen, l.filter (fun r => decide (r.id ∉ deleteIdsOf l seen)) =
      keepFirstByName l seen := by
  induction l with
  | nil => intro seen; rfl
  | cons img rest ih =>
    intro seen
    have hid_not : img.id ∉ rest.map Img.id := by
      simp only [List.map_cons, List.nodup_cons] at hids
      exact hids.1
    have hrest : (rest.map Img.id).Nodup := by
      simp only [List.map_cons, List.nodup_cons] at hids
      exact hids.2
    rw [deleteIdsOf, keepFirstByName]
    by_cases hm : img.name ∈ seen
    · rw [if_pos hm, if_pos hm]
      rw [List.filter_cons]
      have hhead : (decide (img.id ∉ img.id :: deleteIdsOf rest seen)) = false := by
        simp
      rw [hhead]
      simp only [Bool.false_eq_true, if_false]
      have hcongr : rest.filter
          (fun r => decide (r.id ∉ img.id :: deleteIdsOf rest seen)) =
          rest.filter (fun r => decide (r.id ∉ deleteIdsOf rest seen)) := by
        apply List.filter_congr
        intro r hr
        have hne : r.id ≠ img.id := by
          intro he
          exact hid_not (he ▸ List.mem_map_of_mem Img.id hr)
        simp [List.mem_cons, hne]
      rw [hcongr, ih hrest seen]
    · rw [if_neg hm, if_neg hm]
      rw [List.filter_cons]
      have hhead : (decide (img.id ∉ deleteIdsOf rest (img.name :: seen))) = true := by
        simp only [decide_eq_true_eq]
        intro hin
        exact hid_not (deleteIdsOf_subset rest (img.name :: seen) img.id hin)
      rw [hhead]
      simp only [if_true]
      have hcongr : rest.filter
          (fun r => decide (r.id ∉ deleteIdsOf rest (img.name :: seen))) =
          keepFirstByName rest (img.name :: seen) := ih hrest (img.name :: seen)
      rw [hcongr]

theorem keepFirstByName_of_nodup (l : List Img) :
    ∀ seen, (l.map Img.name).Nodup → (∀ r ∈ l, r.name ∉ seen) →
      keepFirstByName l seen = l := by
  induction l with
  | nil => intro seen _ _; rfl
  | cons img rest ih =>
    intro seen hnames hseen
    have h1 : img.name ∉ seen := hseen img (List.mem_cons_self img rest)
    rw [keepFirstByName, if_neg h1]
    simp only [List.map_cons, List.nodup_cons] at hnames
    rw [ih (img.name :: seen) hnames.2]
    intro r hr
    simp only [List.mem_cons]
    rintro (he | he)
    · exact hnames.1 (he ▸ List.mem_map_of_mem Img.name hr)
    · exact hseen r (List.mem_cons_of_mem img hr) he

/-- Counterexample to claim C10: when the in-memory sequence order
diverges from the store order (the drag-reorder of lines 154-159 mutates
only the in-memory array), removeDuplicates resets the order to the
store's ascending-key order even though all names are pairwise distinct -
the sequence is not left unchanged and the relative order of the kept
images is not preserved. -/
theorem c10_remove_duplicates_counterexample :
    (([⟨2, "b"⟩, ⟨1, "a"⟩] : List Img).map Img.name).Nodup ∧
    removeDuplicates [⟨2, "b"⟩, ⟨1, "a"⟩] [⟨1, "a"⟩, ⟨2, "b"⟩] ≠
      [⟨2, "b"⟩, ⟨1, "a"⟩] := by
  constructor
  · decide
  · decide

/-- Claim C10 amended: when the in-memory sequence agrees with the store
order (no in-memory reorder since the last refresh) and the record ids
are pairwise distinct, removeDuplicates keeps, for each display name,
exactly the first image bearing that name, deletes every later image with
the same name, and preserves the relative order of the kept images; in
particular a sequence with pairwise-distinct names is left entirely
unchanged.  Without that agreement the result follows the store's
ascending-key order instead of the in-memory order. -/
theorem c10_remove_duplicates_amended (db : List Img)
    (hids : (db.map Img.id).Nodup) :
    removeDuplicates db db = keepFirstByName db [] ∧
    ((db.map Img.name).Nodup → removeDuplicates db db = db) := by
  have hmain : removeDuplicates db db = keepFirstByName db [] := by
    rw [removeDuplicates]
    exact filter_deleteIdsOf db hids []
  refine ⟨hmain, ?_⟩
  intro hnames
  rw [hmain]
  exact keepFirstByName_of_nodup db [] hnames (by simp)

/-- Witness for the amended claim C10: deduplicating the aligned store
[(1, a), (2, b), (3, a)] keeps records 1 and 2 in order. -/
theorem c10_remove_duplicates_amended_witness :
    removeDuplicates [⟨1, "a"⟩, ⟨2, "b"⟩, ⟨3, "a"⟩]
        [⟨1, "a"⟩, ⟨2, "b"⟩, ⟨3, "a"⟩] = [⟨1, "a"⟩, ⟨2, "b"⟩] := by
  have h := (c10_remove_duplicates_amended
    [⟨1, "a"⟩, ⟨2, "b"⟩, ⟨3, "a"⟩] (by decide)).1
  rw [h]
  decide
